import Mathlib

/-!
Verification of the obsidian-mcp content index and query engine.

This file shallowly embeds the persistent search index
(`obsidian_mcp/utils/persistent_index.py`), the vault filesystem layer
(`obsidian_mcp/utils/filesystem.py`) and the search dispatch layer
(`obsidian_mcp/tools/search_discovery.py`) into Lean, and proves or refutes
the frozen claims about them.

Modelling conventions:
* Python strings are modelled as `List Char` where character-level operations
  (lowercasing, substring tests, splitting) matter, and as Lean `String`
  where only equality of identifiers (file paths, property names, type tags)
  is needed.
* Python floats (`mtime`, scores) are modelled as `ℚ`; all the arithmetic
  the code performs on them (division by constants, `min`, comparison) is
  exact in the ranges exercised, so no floating-point rounding is lost.
* SQLite tables are modelled as Lean lists of rows, in rowid order; SQL
  statements are modelled row by row (filters, joins, ORDER BY as a stable
  merge sort, LIMIT as `take`).
* External library functions that the code calls but does not define
  (SHA-256, ISO-8601 date parsing, Python `float()` parsing, SQLite
  `CAST AS REAL`, the FTS5 match engine, the `re` regex engine) are taken
  as explicit function parameters of the embedding; the theorems quantify
  over them or instantiate them with concrete honest semantics where a
  concrete result is needed.
-/

namespace ObsidianMCP

/-- Python strings, seen as character lists. -/
abbrev Str := List Char

/-- Python `str.lower()` (ASCII case folding, which is all the code relies on). -/
def lowerStr (s : Str) : Str := s.map Char.toLower

/-- A scalar front-matter value: Python `bool`, `int`, `float` or `str`.
`bool` is listed first because `_determine_property_type` tests
`isinstance(value, bool)` before `int`. -/
inductive Scalar where
  | bool (b : Bool)
  | int (n : ℤ)
  | float (q : ℚ)
  | str (s : Str)
deriving DecidableEq

/-- A front-matter property value: a scalar or a list of scalars.
Nested lists and mapping-valued properties do not occur in the
repository's data or tests and are not modelled. -/
inductive PropValue where
  | scalar (s : Scalar)
  | list (items : List Scalar)
deriving DecidableEq

/-- Python `str()` of a scalar (`str(True) = "True"`, `str(3) = "3"`, ...).
The rendering of floats delegates to Lean's `toString` on `ℚ`; no claim
depends on the float case. -/
def Scalar.pyString : Scalar → Str
  | .bool b => if b then "True".toList else "False".toList
  | .int n => (toString n).toList
  | .float q => (toString q).toList
  | .str s => s

/-- Python `repr()` of a scalar, used when a list is rendered by `str()`. -/
def Scalar.pyRepr : Scalar → Str
  | .str s => '\'' :: (s ++ ['\''])
  | v => v.pyString

/-- `json.dumps` of a scalar. -/
def Scalar.jsonStr : Scalar → Str
  | .bool b => if b then "true".toList else "false".toList
  | .int n => (toString n).toList
  | .float q => (toString q).toList
  | .str s => '"' :: (s ++ ['"'])

/-- Python `str()` of a property value (`str(['a']) = "['a']"`). -/
def PropValue.pyString : PropValue → Str
  | .scalar v => v.pyString
  | .list items => '[' :: (List.intercalate ", ".toList (items.map Scalar.pyRepr) ++ [']'])

/-- `PersistentSearchIndex._determine_property_type`: structural type tag of a
property value.  `isIsoDate` stands for the external
`datetime.fromisoformat` success test on the string (after the `Z`
replacement). -/
def determinePropertyType (isIsoDate : Str → Bool) : PropValue → String
  | .scalar (.bool _) => "boolean"
  | .scalar (.int _) => "number"
  | .scalar (.float _) => "number"
  | .scalar (.str s) => if isIsoDate s then "date" else "text"
  | .list _ => "list"

/-- The string stored in `file_properties.property_value` by `index_file`:
`json.dumps(prop_value)` for lists, `str(prop_value)` otherwise. -/
def propValueStr : PropValue → Str
  | .scalar v => v.pyString
  | .list items => '[' :: (List.intercalate ", ".toList (items.map Scalar.jsonStr) ++ [']'])

/-- The metadata dict produced by `_extract_file_metadata`: an optional
`frontmatter` mapping (present only when YAML parsing succeeded) plus the
extracted tag list. -/
structure Metadata where
  frontmatter : Option (List (String × PropValue))
  tags : List Str
deriving DecidableEq

/-- One row of the `file_index` table (minus its `filepath` primary key). -/
structure FileRow where
  content : Str
  contentLower : Str
  mtime : ℚ
  size : ℕ
  contentHash : Str
  lastIndexed : ℚ
  metadata : Option Metadata
  lineOffsets : List ℕ
deriving DecidableEq

/-- One row of the FTS5 `file_search` table. -/
structure FtsRow where
  filepath : String
  content : Str
  contentLower : Str
deriving DecidableEq

/-- One row of the `file_properties` table. -/
structure PropRow where
  filepath : String
  propName : String
  propValue : Str
  propType : String
deriving DecidableEq

/-- The SQLite database state: the three tables, each in rowid order. -/
structure IndexStore where
  fileIndex : List (String × FileRow)
  fileSearch : List FtsRow
  fileProperties : List PropRow
deriving DecidableEq

/-- `PersistentSearchIndex._calculate_line_offsets`: `[0]` followed by
`i + 1` for every index `i` holding a newline. -/
def calculateLineOffsets (content : Str) : List ℕ :=
  0 :: content.enum.filterMap (fun p => if p.2 = '\n' then some (p.1 + 1) else none)

/-- Row lookup by primary key in `file_index`
(`SELECT ... FROM file_index WHERE filepath = ?`). -/
def lookupRow (s : IndexStore) (fp : String) : Option FileRow :=
  (s.fileIndex.find? (fun r => r.1 = fp)).map (fun r => r.2)

/-- `PersistentSearchIndex.get_file_info` (restricted to the fields it reads). -/
def getFileInfo (s : IndexStore) (fp : String) : Option FileRow :=
  lookupRow s fp

/-- `PersistentSearchIndex.needs_update`: true when no snapshot is stored or
either the stored mtime or the stored size differs from the current value. -/
def needsUpdate (s : IndexStore) (fp : String) (curMtime : ℚ) (curSize : ℕ) : Bool :=
  match getFileInfo s fp with
  | none => true
  | some r => decide (r.mtime ≠ curMtime) || decide (r.size ≠ curSize)

/-- The `file_properties` rows `index_file` inserts for a front-matter dict. -/
def propRowsOf (isIsoDate : Str → Bool) (fp : String)
    (fm : List (String × PropValue)) : List PropRow :=
  fm.map (fun p => ⟨fp, p.1, propValueStr p.2, determinePropertyType isIsoDate p.2⟩)

/-- `PersistentSearchIndex.index_file`.  `hash` stands for the external
SHA-256 (`_compute_hash`), `now` for `datetime.now().timestamp()`.
The three table mutations of the source, in its transaction:
`INSERT OR REPLACE` into `file_index`; `DELETE` + `INSERT` on `file_search`;
and, only when the metadata dict carries a `frontmatter` key, `DELETE` of the
file's `file_properties` rows followed by one `INSERT` per property. -/
def indexFile (hash : Str → Str) (isIsoDate : Str → Bool) (now : ℚ)
    (s : IndexStore) (filepath : String) (content : Str) (mtime : ℚ) (size : ℕ)
    (metadata : Option Metadata) : IndexStore :=
  let contentLower := lowerStr content
  let row : FileRow :=
    { content := content, contentLower := contentLower, mtime := mtime, size := size,
      contentHash := hash content, lastIndexed := now,
      metadata := metadata, lineOffsets := calculateLineOffsets content }
  { fileIndex := s.fileIndex.filter (fun r => decide (r.1 ≠ filepath)) ++ [(filepath, row)],
    fileSearch := s.fileSearch.filter (fun r => decide (r.filepath ≠ filepath)) ++
      [⟨filepath, content, contentLower⟩],
    fileProperties :=
      match metadata with
      | some md =>
        match md.frontmatter with
        | some fm =>
          s.fileProperties.filter (fun r => decide (r.filepath ≠ filepath)) ++
            propRowsOf isIsoDate filepath fm
        | none => s.fileProperties
      | none => s.fileProperties }

/-- The table mutations of `PersistentSearchIndex.remove_file`: it deletes the
`file_index` and `file_search` rows of the path.  (It issues no delete against
`file_properties`; the declared `ON DELETE CASCADE` does not fire because the
connection never enables `PRAGMA foreign_keys`.) -/
def removeFileFromTables (s : IndexStore) (fp : String) : IndexStore :=
  { fileIndex := s.fileIndex.filter (fun r => decide (r.1 ≠ fp)),
    fileSearch := s.fileSearch.filter (fun r => decide (r.filepath ≠ fp)),
    fileProperties := s.fileProperties }

/-- `PersistentSearchIndex.get_all_files`: every indexed filepath. -/
def allPaths (s : IndexStore) : List String :=
  s.fileIndex.map (fun r => r.1)

/-- The `file_properties` rows stored for one filepath. -/
def propsFor (s : IndexStore) (fp : String) : List PropRow :=
  s.fileProperties.filter (fun r => decide (r.filepath = fp))

/-!
### The index lock

`PersistentSearchIndex` guards every mutation with one `asyncio.Lock`
(`self._lock`), which is not reentrant.  The event loop runs one task at a
time, so when the task that already holds the lock awaits `acquire` again,
no other task exists to release it and the `await` never completes.  We model
the store together with its lock bit; `acquireLock` returns `none` for that
forever-blocked acquisition, and `none` propagates through the rest of the
call, so "the call never terminates" is rendered as "the call denotes
`none`".
-/

/-- The store together with its single `asyncio.Lock`. -/
structure LockedIndex where
  store : IndexStore
  lockHeld : Bool
deriving DecidableEq

/-- `await self._lock.acquire()` by the only running task: succeeds when the
lock is free, blocks forever (`none`) when that same task already holds it. -/
def acquireLock (s : LockedIndex) : Option LockedIndex :=
  if s.lockHeld then none else some { s with lockHeld := true }

/-- `PersistentSearchIndex.remove_file`: takes the lock, deletes the
`file_index` and `file_search` rows, releases the lock. -/
def removeFile (s : LockedIndex) (fp : String) : Option LockedIndex :=
  (acquireLock s).map (fun s1 => ⟨removeFileFromTables s1.store fp, false⟩)

/-- The orphan set computed inside `clear_orphaned_entries`:
indexed filepaths absent from `existing_files`. -/
def orphanedFiles (store : IndexStore) (existingFiles : List String) : List String :=
  (allPaths store).filter (fun fp => decide (fp ∉ existingFiles))

/-- `PersistentSearchIndex.clear_orphaned_entries`: acquires `self._lock`,
computes the orphan set, and awaits `remove_file` (which acquires the same
lock) for each orphan. -/
def clearOrphanedEntries (s : LockedIndex) (existingFiles : List String) :
    Option LockedIndex := do
  let s1 ← acquireLock s
  let s2 ← (orphanedFiles s1.store existingFiles).foldlM
    (fun acc fp => removeFile acc fp) s1
  pure ⟨s2.store, false⟩

/-!
### The refresh cycle

`ObsidianVault._update_persistent_index` walks the vault, ingesting files
that need an update, and then sweeps orphans.  A walked file is modelled by
the data the walk and the ingestion read from it, plus two flags marking the
spots where the source's per-file `try`/`except` can catch an error: `statOk`
is false when `md_file.stat()` raises (before the path is recorded in
`existing_files`), `readOk` is false when reading or indexing the file raises
(after the path was recorded). -/
structure WalkedFile where
  relPath : String
  statOk : Bool
  mtime : ℚ
  size : ℕ
  readOk : Bool
  content : Str
  metadata : Option Metadata
deriving DecidableEq

/-- One iteration of the walk loop in `_update_persistent_index`, threading
the `existing_files` accumulator and the store. -/
def refreshStep (hash : Str → Str) (isIsoDate : Str → Bool) (now : ℚ)
    (acc : List String × IndexStore) (f : WalkedFile) : List String × IndexStore :=
  if f.statOk = false then acc
  else
    let existing := f.relPath :: acc.1
    if needsUpdate acc.2 f.relPath f.mtime f.size then
      if f.readOk then
        (existing, indexFile hash isIsoDate now acc.2 f.relPath f.content f.mtime f.size
          f.metadata)
      else (existing, acc.2)
    else (existing, acc.2)

/-- `ObsidianVault._update_persistent_index`: process every walked file, then
run the orphan sweep on the observed file set.  The result is `none` when the
sweep never terminates (see `clearOrphanedEntries`). -/
def updatePersistentIndex (hash : Str → Str) (isIsoDate : Str → Bool) (now : ℚ)
    (store : IndexStore) (files : List WalkedFile) : Option IndexStore :=
  (clearOrphanedEntries
      ⟨(files.foldl (refreshStep hash isIsoDate now) ([], store)).2, false⟩
      (files.foldl (refreshStep hash isIsoDate now) ([], store)).1).map
    (fun s => s.store)

/-!
### Helper lemmas on keyed tables
-/

/-- Filtering a list for a key after filtering the same key out yields nothing. -/
theorem filter_eq_of_filter_ne {α : Type} (key : α → String) (l : List α) (fp : String) :
    (l.filter (fun r => decide (key r ≠ fp))).filter (fun r => decide (key r = fp)) = [] := by
  rw [List.filter_filter]
  apply List.filter_eq_nil_iff.mpr
  intro a _
  by_cases h : key a = fp <;> simp [h]

/-- Every generated property row carries the generating filepath. -/
theorem filter_propRowsOf (isIsoDate : Str → Bool) (fp : String)
    (fm : List (String × PropValue)) :
    (propRowsOf isIsoDate fp fm).filter (fun r => decide (r.filepath = fp)) =
      propRowsOf isIsoDate fp fm := by
  apply List.filter_eq_self.mpr
  intro a ha
  simp only [propRowsOf, List.mem_map] at ha
  obtain ⟨p, _, rfl⟩ := ha
  simp

/-- Interface values used to instantiate the external functions of the
embedding (hashing, date detection) in concrete evaluations. -/
def hashId : Str → Str := fun c => c

/-- A date detector that classifies nothing as a date (the concrete strings
in the evaluations below are not ISO dates). -/
def noDate : Str → Bool := fun _ => false

/-- The store of a freshly created, empty database. -/
def emptyStore : IndexStore := ⟨[], [], []⟩

/-!
### C10 — staleness test
-/

/-- C10: `needs_update` returns false exactly when a snapshot for the
filepath is stored and both its mtime and its size equal the current
values; a missing snapshot, or a difference in either field alone,
makes it true. -/
theorem C10_needs_update_iff (s : IndexStore) (fp : String) (m : ℚ) (sz : ℕ) :
    needsUpdate s fp m sz = false ↔
      ∃ r : FileRow, getFileInfo s fp = some r ∧ r.mtime = m ∧ r.size = sz := by
  unfold needsUpdate
  cases h : getFileInfo s fp with
  | none => simp [h]
  | some r => simp [h]

/-!
### C9 — idempotent re-ingestion
-/

/-- C9: ingesting the same `(path, content, mtime, size, metadata)` twice
leaves exactly one `file_index` row and one `file_search` row for the path,
and the same `file_properties` set for the path as a single ingestion. -/
theorem C9_index_file_idempotent (hash : Str → Str) (isIsoDate : Str → Bool)
    (now1 now2 : ℚ) (s : IndexStore) (fp : String) (content : Str) (mtime : ℚ)
    (size : ℕ) (md : Option Metadata) :
    ((indexFile hash isIsoDate now2
        (indexFile hash isIsoDate now1 s fp content mtime size md)
        fp content mtime size md).fileIndex.filter
          (fun r => decide (r.1 = fp))).length = 1 ∧
    ((indexFile hash isIsoDate now2
        (indexFile hash isIsoDate now1 s fp content mtime size md)
        fp content mtime size md).fileSearch.filter
          (fun r => decide (r.filepath = fp))).length = 1 ∧
    propsFor (indexFile hash isIsoDate now2
        (indexFile hash isIsoDate now1 s fp content mtime size md)
        fp content mtime size md) fp =
      propsFor (indexFile hash isIsoDate now1 s fp content mtime size md) fp := by
  refine ⟨?_, ?_, ?_⟩
  · simp [indexFile, List.filter_append, filter_eq_of_filter_ne (fun r : String × FileRow => r.1)]
  · simp [indexFile, List.filter_append, filter_eq_of_filter_ne (fun r : FtsRow => r.filepath)]
  · cases md with
    | none => simp [indexFile, propsFor]
    | some m =>
      cases hf : m.frontmatter with
      | none => simp [indexFile, propsFor, hf]
      | some fm =>
        simp [indexFile, propsFor, hf, List.filter_append,
          filter_eq_of_filter_ne (fun r : PropRow => r.filepath)]

/-!
### C8 — wholesale regeneration of property rows
-/

/-- C8 (amended): after `index_file`, the property rows stored for the path
are exactly those derived from the new front-matter whenever the new
metadata carries a `frontmatter` key (old rows are deleted first); when the
new metadata carries no front-matter, the previously stored rows are left
in place untouched. -/
theorem C8_props_after_index_file (hash : Str → Str) (isIsoDate : Str → Bool)
    (now : ℚ) (s : IndexStore) (fp : String) (content : Str) (mtime : ℚ)
    (size : ℕ) (md : Option Metadata) :
    propsFor (indexFile hash isIsoDate now s fp content mtime size md) fp =
      match md with
      | some m =>
        match m.frontmatter with
        | some fm => propRowsOf isIsoDate fp fm
        | none => propsFor s fp
      | none => propsFor s fp := by
  cases md with
  | none => simp [indexFile, propsFor]
  | some m =>
    cases hf : m.frontmatter with
    | none => simp [indexFile, propsFor, hf]
    | some fm =>
      simp [indexFile, propsFor, hf, List.filter_append,
        filter_eq_of_filter_ne (fun r : PropRow => r.filepath), filter_propRowsOf]

/-- C8 counterexample: ingest `n.md` with front-matter `{a: "1"}`, then
re-ingest it with a metadata dict that carries no front-matter.  The claim
says the property rows afterwards are exactly those derived from the new
ingestion's front-matter (none), but the stale row from the first ingestion
survives. -/
theorem C8_counterexample :
    propsFor (indexFile hashId noDate 1
        (indexFile hashId noDate 0 emptyStore "n.md" ['x'] 0 1
          (some ⟨some [("a", .scalar (.str ['1']))], []⟩))
        "n.md" ['y'] 2 1 (some ⟨none, []⟩)) "n.md" =
      [⟨"n.md", "a", ['1'], "text"⟩] ∧
    propsFor (indexFile hashId noDate 1
        (indexFile hashId noDate 0 emptyStore "n.md" ['x'] 0 1
          (some ⟨some [("a", .scalar (.str ['1']))], []⟩))
        "n.md" ['y'] 2 1 (some ⟨none, []⟩)) "n.md" ≠ [] := by
  constructor
  · decide
  · decide

/-!
### C1 — the orphan sweep self-deadlocks
-/

/-- Characterization of the orphan sweep: it completes (with the store
unchanged) exactly when the orphan set is empty, and denotes `none`
(blocks forever on the lock) otherwise. -/
theorem clearOrphanedEntries_eq (store : IndexStore) (existingFiles : List String) :
    clearOrphanedEntries ⟨store, false⟩ existingFiles =
      if orphanedFiles store existingFiles = [] then some ⟨store, false⟩ else none := by
  unfold clearOrphanedEntries
  cases h : orphanedFiles store existingFiles with
  | nil => simp [acquireLock, h]
  | cons fp rest => simp [acquireLock, h, removeFile]

/-- C1: called with the lock free, `clear_orphaned_entries` terminates and
leaves the store unchanged exactly when the orphan set is empty; when at
least one indexed filepath is absent from `existing_files`, it awaits
`remove_file` while already holding the non-reentrant lock and never
terminates (denoted `none`). -/
theorem C1_clear_orphaned_deadlock (store : IndexStore) (existingFiles : List String) :
    clearOrphanedEntries ⟨store, false⟩ existingFiles =
      if orphanedFiles store existingFiles = [] then some ⟨store, false⟩ else none :=
  clearOrphanedEntries_eq store existingFiles

/-!
### C7 — what a completed refresh cycle leaves in the index
-/

/-- Membership in the paths of the store after `index_file`. -/
theorem mem_allPaths_indexFile (hash : Str → Str) (isIsoDate : Str → Bool) (now : ℚ)
    (s : IndexStore) (fp : String) (content : Str) (mtime : ℚ) (size : ℕ)
    (md : Option Metadata) (p : String) :
    p ∈ allPaths (indexFile hash isIsoDate now s fp content mtime size md) ↔
      p = fp ∨ p ∈ allPaths s := by
  simp only [allPaths, indexFile, List.map_append, List.mem_append, List.mem_map,
    List.mem_filter, List.map_cons, List.map_nil, List.mem_singleton]
  constructor
  · rintro (⟨a, ⟨ha, _⟩, rfl⟩ | rfl)
    · exact Or.inr ⟨a, ha, rfl⟩
    · exact Or.inl rfl
  · rintro (rfl | ⟨a, ha, rfl⟩)
    · exact Or.inr rfl
    · by_cases h : a.1 = fp
      · exact Or.inr h
      · exact Or.inl ⟨a, ⟨ha, by simpa using h⟩, rfl⟩

/-- A filepath with a stored snapshot is among the indexed paths. -/
theorem mem_allPaths_of_lookup (s : IndexStore) (fp : String) (r : FileRow)
    (h : lookupRow s fp = some r) : fp ∈ allPaths s := by
  unfold lookupRow at h
  cases hf : s.fileIndex.find? (fun r => decide (r.1 = fp)) with
  | none => simp [hf] at h
  | some a =>
    have hmem := List.mem_of_find?_eq_some hf
    have hkey := List.find?_some hf
    simp only [decide_eq_true_eq] at hkey
    exact hkey ▸ List.mem_map.mpr ⟨a, hmem, rfl⟩

/-- The walk loop only ever adds paths to the store. -/
theorem mem_allPaths_refreshStep (hash : Str → Str) (isIsoDate : Str → Bool) (now : ℚ)
    (acc : List String × IndexStore) (f : WalkedFile) (p : String)
    (h : p ∈ allPaths acc.2) : p ∈ allPaths (refreshStep hash isIsoDate now acc f).2 := by
  unfold refreshStep
  by_cases hs : f.statOk = false
  · simpa [hs] using h
  · by_cases hn : needsUpdate acc.2 f.relPath f.mtime f.size
    · by_cases hr : f.readOk
      · simp only [hs, hn, hr, if_false, if_true]
        exact (mem_allPaths_indexFile _ _ _ _ _ _ _ _ _ _).mpr (Or.inr h)
      · simp only [hs, hn, if_false, if_true]
        simpa [hr] using h
    · simpa [hs, hn] using h

/-- Paths present in the accumulator survive the whole walk loop. -/
theorem mem_allPaths_refreshFold (hash : Str → Str) (isIsoDate : Str → Bool) (now : ℚ)
    (files : List WalkedFile) (acc : List String × IndexStore) (p : String)
    (h : p ∈ allPaths acc.2) :
    p ∈ allPaths (files.foldl (refreshStep hash isIsoDate now) acc).2 := by
  induction files generalizing acc with
  | nil => simpa using h
  | cons f fs ih =>
    exact ih _ (mem_allPaths_refreshStep hash isIsoDate now acc f p h)

/-- A walked file whose stat and read both succeed ends up indexed. -/
theorem mem_allPaths_of_walk_ok (hash : Str → Str) (isIsoDate : Str → Bool) (now : ℚ)
    (files : List WalkedFile) (acc : List String × IndexStore) (f : WalkedFile)
    (hmem : f ∈ files) (hstat : f.statOk = true) (hread : f.readOk = true) :
    f.relPath ∈ allPaths (files.foldl (refreshStep hash isIsoDate now) acc).2 := by
  induction files generalizing acc with
  | nil => cases hmem
  | cons g gs ih =>
    rcases List.mem_cons.mp hmem with rfl | htail
    · refine mem_allPaths_refreshFold hash isIsoDate now gs
        (refreshStep hash isIsoDate now acc f) f.relPath ?_
      unfold refreshStep
      simp only [hstat, Bool.true_eq_false, if_false]
      by_cases hn : needsUpdate acc.2 f.relPath f.mtime f.size
      · simp only [hn, hread, if_true]
        exact (mem_allPaths_indexFile _ _ _ _ _ _ _ _ _ _).mpr (Or.inl rfl)
      · simp only [hn, if_false]
        cases hlook : getFileInfo acc.2 f.relPath with
        | none => simp [needsUpdate, hlook] at hn
        | some r => exact mem_allPaths_of_lookup _ _ r hlook
    · exact ih _ htail

/-- The observed-file accumulator of the walk loop contains exactly the
initial entries plus the stat-successful walked paths. -/
theorem mem_existing_refreshFold (hash : Str → Str) (isIsoDate : Str → Bool) (now : ℚ)
    (files : List WalkedFile) (acc : List String × IndexStore) (p : String) :
    p ∈ (files.foldl (refreshStep hash isIsoDate now) acc).1 ↔
      p ∈ acc.1 ∨ ∃ f ∈ files, f.statOk = true ∧ f.relPath = p := by
  induction files generalizing acc with
  | nil => simp
  | cons g gs ih =>
    rw [List.foldl_cons, ih]
    have hstep : (refreshStep hash isIsoDate now acc g).1 =
        if g.statOk then g.relPath :: acc.1 else acc.1 := by
      unfold refreshStep
      by_cases hs : g.statOk = false
      · simp [hs]
      · rw [Bool.not_eq_false] at hs
        by_cases hn : needsUpdate acc.2 g.relPath g.mtime g.size <;>
          by_cases hr : g.readOk <;> simp [hs, hn, hr]
    rw [hstep]
    by_cases hs : g.statOk = true
    · rw [if_pos hs, List.exists_mem_cons_iff]
      simp only [hs, true_and, List.mem_cons]
      constructor
      · rintro ((rfl | h) | e)
        · exact Or.inr (Or.inl rfl)
        · exact Or.inl h
        · exact Or.inr (Or.inr e)
      · rintro (h | heq | e)
        · exact Or.inl (Or.inr h)
        · exact Or.inl (Or.inl heq.symm)
        · exact Or.inr e
    · rw [if_neg hs, List.exists_mem_cons_iff]
      simp [hs]

/-- C7 (amended): when a refresh cycle completes, every indexed path was
observed on that cycle's walk, no path indexed before the cycle is lost, and
every walked file whose stat and read both succeeded is indexed — but a
walked file whose ingestion raised an error need not be (see the
counterexample). -/
theorem C7_refresh_cycle (hash : Str → Str) (isIsoDate : Str → Bool) (now : ℚ)
    (store : IndexStore) (files : List WalkedFile) (store' : IndexStore)
    (h : updatePersistentIndex hash isIsoDate now store files = some store') :
    (∀ p ∈ allPaths store', ∃ f ∈ files, f.statOk = true ∧ f.relPath = p) ∧
    (∀ p ∈ allPaths store, p ∈ allPaths store') ∧
    (∀ f ∈ files, f.statOk = true → f.readOk = true → f.relPath ∈ allPaths store') := by
  unfold updatePersistentIndex at h
  rw [clearOrphanedEntries_eq] at h
  by_cases horph : orphanedFiles
      (files.foldl (refreshStep hash isIsoDate now) ([], store)).2
      (files.foldl (refreshStep hash isIsoDate now) ([], store)).1 = []
  · rw [if_pos horph] at h
    simp only [Option.map_some', Option.some_inj] at h
    subst h
    refine ⟨?_, ?_, ?_⟩
    · intro p hp
      have hobs : p ∈ (files.foldl (refreshStep hash isIsoDate now) ([], store)).1 := by
        by_contra hno
        have : p ∈ orphanedFiles
            (files.foldl (refreshStep hash isIsoDate now) ([], store)).2
            (files.foldl (refreshStep hash isIsoDate now) ([], store)).1 := by
          simp only [orphanedFiles, List.mem_filter, decide_eq_true_eq]
          exact ⟨hp, hno⟩
        rw [horph] at this
        cases this
      have := (mem_existing_refreshFold hash isIsoDate now files ([], store) p).mp hobs
      simpa using this
    · intro p hp
      exact mem_allPaths_refreshFold hash isIsoDate now files ([], store) p (by simpa using hp)
    · intro f hf hstat hread
      exact mem_allPaths_of_walk_ok hash isIsoDate now files ([], store) f hf hstat hread
  · rw [if_neg horph] at h
    rw [Option.map_none'] at h
    exact Option.noConfusion h

/-- Witness for C7: a one-file walk that ingests successfully completes the
cycle and the file is indexed. -/
theorem C7_witness :
    updatePersistentIndex hashId noDate 0 emptyStore
        [⟨"a.md", true, 0, 1, true, ['x'], none⟩] =
      some (indexFile hashId noDate 0 emptyStore "a.md" ['x'] 0 1 none) ∧
    "a.md" ∈ allPaths (indexFile hashId noDate 0 emptyStore "a.md" ['x'] 0 1 none) := by
  refine ⟨by decide, ?_⟩
  exact (C7_refresh_cycle hashId noDate 0 emptyStore
      [⟨"a.md", true, 0, 1, true, ['x'], none⟩]
      (indexFile hashId noDate 0 emptyStore "a.md" ['x'] 0 1 none) (by decide)).2.2
    ⟨"a.md", true, 0, 1, true, ['x'], none⟩ (by decide) rfl rfl

/-!
### C3 — the plain content-search path and its (missing) truncation metadata

`search_notes` (the tool in `search_discovery.py`) dispatches a plain query
to `ObsidianVault.search_notes`, which on the persistent path calls
`PersistentSearchIndex.search_simple` and post-processes the rows
(`_search_with_persistent_index`).  Python's stable sort is modelled by
insertion sort; no theorem depends on the relative order of tied scores.
-/

/-- `PersistentSearchIndex.search_simple`:
`SELECT ... FROM file_index WHERE content_lower LIKE '%q%' LIMIT n` with the
query lowercased — a substring filter over the table in rowid order, cut at
the limit.  (LIKE wildcard characters inside the query are not modelled; no
claim uses them.) -/
def searchSimple (s : IndexStore) (query : Str) (limit : ℕ) : List (String × FileRow) :=
  (s.fileIndex.filter (fun r => decide (lowerStr query <:+: r.2.contentLower))).take limit

/-- The `while True: find(...)` loop of `_search_with_persistent_index`: the
number of positions (overlapping included) where the needle occurs. -/
def countOccurrences (needle hay : Str) : ℕ :=
  ((List.range (hay.length + 1)).filter (fun i => decide (needle <+: hay.drop i))).length

/-- The content-search score `min(match_count/10 + 1, 5)` of
`_search_with_persistent_index`, written as one fraction so that the kernel
can evaluate concrete instances; `simpleScore_eq_source` recovers the
source's formula. -/
def simpleScore (n : ℕ) : ℚ := min (mkRat (n + 10) 10) 5

/-- `simpleScore` is the source's `min(count / 10.0 + 1.0, 5.0)`. -/
theorem simpleScore_eq_source (n : ℕ) : simpleScore n = min ((n : ℚ) / 10 + 1) 5 := by
  unfold simpleScore
  rw [Rat.mkRat_eq_div]
  push_cast
  ring_nf

/-- One entry of the list returned by `ObsidianVault.search_notes`
(the fields the claims are about; the `context` display string and the
echoed query are not modelled). -/
structure ContentHit where
  path : String
  score : ℚ
  matchCount : ℕ
deriving DecidableEq

/-- Descending-score order on content hits (`sort(key=score, reverse=True)`). -/
def scoreGeHit (a b : ContentHit) : Prop := b.score ≤ a.score

instance : DecidableRel scoreGeHit :=
  fun a b => inferInstanceAs (Decidable (b.score ≤ a.score))

instance : IsTotal ContentHit scoreGeHit := ⟨fun a b => le_total b.score a.score⟩

instance : IsTrans ContentHit scoreGeHit := ⟨fun _ _ _ h1 h2 => le_trans h2 h1⟩

/-- `ObsidianVault._search_with_persistent_index`: for each row returned by
`search_simple`, count the occurrences, score them
`min(count/10 + 1, 5)`, and sort by score descending. -/
def searchWithPersistentIndex (s : IndexStore) (query : Str) (maxResults : ℕ) :
    List ContentHit :=
  List.insertionSort scoreGeHit
    ((searchSimple s query maxResults).filterMap (fun r =>
      let n := countOccurrences (lowerStr query) (lowerStr r.2.content)
      if n = 0 then none
      else some ⟨r.1, simpleScore n, n⟩))

/-- The result envelope built by the `search_notes` tool for a plain content
query: the result list, `count = len(results)` and the literal
`"truncated": False`.  The envelope has no total-count field at all. -/
structure SearchEnvelope where
  results : List ContentHit
  count : ℕ
  truncated : Bool
deriving DecidableEq

/-- `search_notes` (tool) on a plain content query: it passes no
`max_results` to `ObsidianVault.search_notes`, so the default 50 applies,
and it hard-codes `truncated = False`. -/
def searchNotesTool (s : IndexStore) (query : Str) : SearchEnvelope :=
  ⟨searchWithPersistentIndex s query 50,
    (searchWithPersistentIndex s query 50).length, false⟩

/-- A document whose content is exactly `"common"`. -/
def commonRow : FileRow :=
  { content := "common".toList, contentLower := "common".toList, mtime := 0, size := 6,
    contentHash := [], lastIndexed := 0, metadata := none, lineOffsets := [0] }

/-- A store holding 75 documents that all contain `"common"`. -/
def store75 : IndexStore :=
  ⟨(List.range 75).map (fun i => ("note" ++ toString i, commonRow)), [], []⟩

/-- C3 (code bug): on a corpus of 75 documents all containing `"common"`,
the `search_notes` tool returns `count = 50` (the SQL `LIMIT 50` default)
with `truncated = false`, and its envelope carries no total count at all —
the tool does not even accept a `max_results` argument.  The underlying
search with limit 100 does find all 75 documents, which is the total the
claim (and `tests/test_search_metadata.py`) expects to be reported. -/
theorem C3_truncation_not_reported :
    (searchNotesTool store75 "common".toList).count = 50 ∧
    (searchNotesTool store75 "common".toList).truncated = false ∧
    (searchWithPersistentIndex store75 "common".toList 100).length = 75 := by
  refine ⟨by decide, by decide, by decide⟩

/-- C7 counterexample: one walked file whose read raises (`readOk = false`)
and which was never indexed before.  The cycle completes (there are no
orphans), yet the file observed on the walk is missing from the index, so
`allPaths` is not the walked set. -/
theorem C7_counterexample :
    updatePersistentIndex hashId noDate 0 emptyStore
        [⟨"a.md", true, 0, 1, false, ['x'], none⟩] = some emptyStore ∧
    "a.md" ∉ allPaths emptyStore := by
  constructor
  · decide
  · decide

/-!
### C4 — hierarchical tag matching

`_search_by_tag` in `search_discovery.py` matches a searched tag against
each tag of a note with four tests: exact equality, `startswith(tag + "/")`,
`note_tag.split("/")[-1] == tag` (guarded by `"/" in note_tag`), and
`f"/{tag}/" in f"/{note_tag}/"` (same guard).  The result rows collect every
matching tag and carry the constant score 1.0; the context display string
built from the note body is not modelled (no claim is about it).
-/

/-- Python `str.split('/')` on a character list. -/
def splitSlash : Str → List Str
  | [] => [[]]
  | c :: rest =>
    match splitSlash rest with
    | [] => [[c]]
    | g :: gs => if c = '/' then [] :: g :: gs else (c :: g) :: gs

/-- `split('/')` of a slash-free string is the single whole string. -/
theorem splitSlash_no_slash (s : Str) (h : '/' ∉ s) : splitSlash s = [s] := by
  induction s with
  | nil => rfl
  | cons c rest ih =>
    have hc : c ≠ '/' := fun hcc => h (hcc ▸ List.mem_cons_self c rest)
    have hr : '/' ∉ rest := fun hm => h (List.mem_cons_of_mem c hm)
    rw [splitSlash, ih hr]
    simp [hc]

/-- The tag test of `_search_by_tag`, clause for clause. -/
def codeMatchesTag (tag noteTag : Str) : Bool :=
  decide (noteTag = tag) ||
  decide ((tag ++ ['/']) <+: noteTag) ||
  (decide ('/' ∈ noteTag) && decide ((splitSlash noteTag).getLastD [] = tag)) ||
  (decide ('/' ∈ noteTag) && decide (('/' :: (tag ++ ['/'])) <:+: ('/' :: (noteTag ++ ['/']))))

/-- The tag-match predicate exactly as the claim words it: `D == T`, or `D`
starts with `T + "/"`, or the last `/`-separated segment of `D` equals `T`,
or `T` occurs as an interior segment of `D` (a segment that is neither the
first nor the last). -/
def specMatchesTagClaim (tag noteTag : Str) : Bool :=
  decide (noteTag = tag) ||
  decide ((tag ++ ['/']) <+: noteTag) ||
  decide ((splitSlash noteTag).getLastD [] = tag) ||
  decide (tag ∈ ((splitSlash noteTag).drop 1).dropLast)

/-- C4 counterexample: for the search term `b/c` and the document tag
`a/b/c`, the code matches (its fourth clause finds `/b/c/` inside
`/a/b/c/`), but the claim's four conditions all fail — `b/c` is not a
segment of `a/b/c` at all, let alone an interior one. -/
theorem C4_counterexample :
    codeMatchesTag "b/c".toList "a/b/c".toList = true ∧
    specMatchesTagClaim "b/c".toList "a/b/c".toList = false := by
  constructor
  · decide
  · decide

/-- Splitting the slash-delimited concatenation equation of
`eq_of_wrapped_infix_no_slash`: if `tag ++ '/' :: r = noteTag ++ ['/']` with
both `tag` and `noteTag` slash-free, the slashes must line up. -/
theorem eq_of_append_slash_eq (tag : Str) :
    ∀ noteTag r : Str, tag ++ '/' :: r = noteTag ++ ['/'] →
      '/' ∉ tag → '/' ∉ noteTag → tag = noteTag ∧ r = [] := by
  induction tag with
  | nil =>
    intro noteTag r h _ hnote
    cases noteTag with
    | nil =>
      simp only [List.nil_append] at h
      injection h with h1 h2
      exact ⟨rfl, h2⟩
    | cons y ys =>
      simp only [List.nil_append, List.cons_append] at h
      injection h with h1 h2
      exact absurd (h1 ▸ List.mem_cons_self y ys) hnote
  | cons x xs ih =>
    intro noteTag r h htag hnote
    cases noteTag with
    | nil =>
      simp only [List.cons_append, List.nil_append] at h
      injection h with h1 h2
      exact absurd (h1 ▸ List.mem_cons_self x xs) htag
    | cons y ys =>
      simp only [List.cons_append] at h
      injection h with h1 h2
      have hxs : '/' ∉ xs := fun hm => htag (List.mem_cons_of_mem x hm)
      have hys : '/' ∉ ys := fun hm => hnote (List.mem_cons_of_mem y hm)
      obtain ⟨he, hr⟩ := ih ys r h2 hxs hys
      exact ⟨by rw [h1, he], hr⟩

/-- If `/tag/` occurs inside `/noteTag/` and `noteTag` is slash-free, the
occurrence can only be the whole wrapped string, so `tag = noteTag`. -/
theorem eq_of_wrapped_infix_no_slash (tag noteTag : Str)
    (hinf : ('/' :: (tag ++ ['/'])) <:+: ('/' :: (noteTag ++ ['/'])))
    (hno : '/' ∉ noteTag) : tag = noteTag := by
  obtain ⟨l, r, heq⟩ := hinf
  have hcount : l.count '/' + ((tag.count '/' + 1) + 1) + r.count '/' = 1 + 1 := by
    have := congrArg (List.count '/') heq
    simp only [List.count_append, List.count_cons_self] at this
    rw [List.count_eq_zero.mpr hno] at this
    omega
  have hl0 : l.count '/' = 0 := by omega
  have htag0 : tag.count '/' = 0 := by omega
  have htag : '/' ∉ tag := List.count_eq_zero.mp htag0
  cases l with
  | cons x l' =>
    have hx : x = '/' := by
      simp only [List.cons_append] at heq
      injection heq with h1 h2
    rw [hx, List.count_cons_self] at hl0
    omega
  | nil =>
    simp only [List.nil_append, List.cons_append] at heq
    injection heq with h1 h2
    rw [List.append_assoc, List.singleton_append] at h2
    exact (eq_of_append_slash_eq tag noteTag r h2 htag hno).1

/-- The tag-match predicate of the amended claim: the fourth clause is
"`T`, wrapped in slashes, occurs as a substring of `D` wrapped in slashes"
(`T`'s segment run occurs contiguously in `D`), with no slash guards. -/
def amendedMatchesTag (tag noteTag : Str) : Prop :=
  noteTag = tag ∨ (tag ++ ['/']) <+: noteTag ∨
    (splitSlash noteTag).getLastD [] = tag ∨
    ('/' :: (tag ++ ['/'])) <:+: ('/' :: (noteTag ++ ['/']))

/-- The note data `_search_by_tag` reads: path and tag set. -/
structure TagNote where
  path : String
  tags : List Str
deriving DecidableEq

/-- One `_search_by_tag` result row (the context display string is not
modelled). -/
structure TagHit where
  path : String
  score : ℚ
  matchingTags : List Str
deriving DecidableEq

/-- `_search_by_tag`: a note is reported when at least one of its tags
matches; all its matching tags are collected; the score is the constant 1.0. -/
def searchByTag (notes : List TagNote) (tag : Str) : List TagHit :=
  notes.filterMap (fun n =>
    let matching := n.tags.filter (fun t => codeMatchesTag tag t)
    if matching.isEmpty then none else some ⟨n.path, 1, matching⟩)

/-- C4 (amended): the code's tag test is equivalent to the claim's four
conditions with the fourth read as "`T` wrapped in slashes occurs inside `D`
wrapped in slashes"; every `_search_by_tag` result carries the constant
score 1.0 and collects exactly the matching tags of its note; and the
claim's three concrete examples hold. -/
theorem C4_tag_matching (tag noteTag : Str) (notes : List TagNote) (r : TagHit)
    (hr : r ∈ searchByTag notes tag) :
    (codeMatchesTag tag noteTag = true ↔ amendedMatchesTag tag noteTag) ∧
    (r.score = 1 ∧ r.matchingTags ≠ [] ∧
      ∃ n ∈ notes, r.path = n.path ∧
        r.matchingTags = n.tags.filter (fun t => codeMatchesTag tag t)) ∧
    (["project".toList, "project/web".toList, "design/web".toList].filter
        (fun t => codeMatchesTag "project".toList t) =
      ["project".toList, "project/web".toList] ∧
    ["project".toList, "project/web".toList, "design/web".toList].filter
        (fun t => codeMatchesTag "web".toList t) =
      ["project/web".toList, "design/web".toList] ∧
    ["project".toList, "project/web".toList, "design/web".toList].filter
        (fun t => codeMatchesTag "project/web".toList t) =
      ["project/web".toList]) := by
  refine ⟨?_, ?_, by decide, by decide, by decide⟩
  · unfold codeMatchesTag amendedMatchesTag
    simp only [Bool.or_eq_true, Bool.and_eq_true, decide_eq_true_eq]
    constructor
    · rintro (((h | h) | ⟨_, h⟩) | ⟨_, h⟩)
      · exact Or.inl h
      · exact Or.inr (Or.inl h)
      · exact Or.inr (Or.inr (Or.inl h))
      · exact Or.inr (Or.inr (Or.inr h))
    · rintro (h | h | h | h)
      · exact Or.inl (Or.inl (Or.inl h))
      · exact Or.inl (Or.inl (Or.inr h))
      · by_cases hs : '/' ∈ noteTag
        · exact Or.inl (Or.inr ⟨hs, h⟩)
        · rw [splitSlash_no_slash noteTag hs] at h
          exact Or.inl (Or.inl (Or.inl h))
      · by_cases hs : '/' ∈ noteTag
        · exact Or.inr ⟨hs, h⟩
        · exact Or.inl (Or.inl (Or.inl
            (eq_of_wrapped_infix_no_slash tag noteTag h hs).symm))
  · simp only [searchByTag, List.mem_filterMap] at hr
    obtain ⟨n, hn, hsome⟩ := hr
    split at hsome
    · exact Option.noConfusion hsome
    · rw [Option.some_inj] at hsome
      subst hsome
      rename ¬_ => hemp
      refine ⟨rfl, ?_, n, hn, rfl, rfl⟩
      intro hnil
      exact hemp (List.isEmpty_iff.mpr hnil)

/-- Witness for C4: a one-note vault tagged `project/web`, searched for
`project`, yields one hit with score 1.0 collecting the matching tag. -/
theorem C4_witness :
    (⟨"n.md", 1, ["project/web".toList]⟩ : TagHit).score = 1 ∧
    (⟨"n.md", 1, ["project/web".toList]⟩ : TagHit).matchingTags ≠ [] ∧
    ∃ n ∈ [(⟨"n.md", ["project/web".toList]⟩ : TagNote)],
      (⟨"n.md", 1, ["project/web".toList]⟩ : TagHit).path = n.path ∧
      (⟨"n.md", 1, ["project/web".toList]⟩ : TagHit).matchingTags =
        n.tags.filter (fun t => codeMatchesTag "project".toList t) :=
  (C4_tag_matching "project".toList [] [⟨"n.md", ["project/web".toList]⟩]
    ⟨"n.md", 1, ["project/web".toList]⟩ (by decide)).2.1

/-!
### C5 — property search over list-typed properties

Two code paths answer `property:` queries: `search_by_property` in
`persistent_index.py` builds SQL over the stored `file_properties` rows
(where a list value was serialized by `json.dumps`), and the fallback in
`search_discovery.py` (`_search_by_property`) evaluates the original Python
value.  Python's and SQLite's string comparisons are both code-point-wise on
the ASCII data involved, modelled by `strLtChars`.
-/

/-- Code-point-wise lexicographic strict order on strings (SQLite BINARY
collation; also Python's `<` on `str` for the code points involved). -/
def strLtChars : Str → Str → Bool
  | [], [] => false
  | [], _ :: _ => true
  | _ :: _, [] => false
  | a :: as, b :: bs => if a < b then true else if b < a then false else strLtChars as bs

/-- Dispatch of a comparison operator over the string order. -/
def cmpStr : String → Str → Str → Bool
  | ">", a, b => strLtChars b a
  | "<", a, b => strLtChars a b
  | ">=", a, b => !strLtChars a b
  | "<=", a, b => !strLtChars b a
  | _, _, _ => false

/-- Dispatch of a comparison operator over rationals. -/
def cmpQ : String → ℚ → ℚ → Bool
  | ">", a, b => decide (b < a)
  | "<", a, b => decide (a < b)
  | ">=", a, b => decide (b ≤ a)
  | "<=", a, b => decide (a ≤ b)
  | _, _, _ => false

/-- One row of a `search_by_property` result (the note content, used only
for the context display string, is not modelled). -/
structure PropHit where
  filepath : String
  propValue : Str
  propType : String
deriving DecidableEq

/-- `JOIN file_index f ON f.filepath = p.filepath WHERE p.property_name = ?`:
the property rows of the searched name paired with their file rows. -/
def joinRows (s : IndexStore) (name : String) : List (PropRow × FileRow) :=
  s.fileProperties.filterMap (fun p =>
    if p.propName = name then (lookupRow s p.filepath).map (fun fr => (p, fr)) else none)

/-- Descending-mtime order on joined rows (`ORDER BY f.mtime DESC`; the
order of ties is unspecified in SQL and irrelevant to every claim). -/
def mtimeGeRow (a b : PropRow × FileRow) : Prop := b.2.mtime ≤ a.2.mtime

instance : DecidableRel mtimeGeRow :=
  fun a b => inferInstanceAs (Decidable (b.2.mtime ≤ a.2.mtime))

instance : IsTotal (PropRow × FileRow) mtimeGeRow :=
  ⟨fun a b => le_total b.2.mtime a.2.mtime⟩

instance : IsTrans (PropRow × FileRow) mtimeGeRow :=
  ⟨fun _ _ _ h1 h2 => le_trans h2 h1⟩

/-- The WHERE clauses of `PersistentSearchIndex.search_by_property`, per
operator.  `castReal` stands for SQLite `CAST(... AS REAL)`.  A `none` value
reproduces SQL NULL comparison semantics (selects nothing, except the
IS NULL disjunct of `!=`).  `LIKE` and `LOWER` are ASCII case-insensitive. -/
def sqlFilterRows (castReal : Str → ℚ) (s : IndexStore) (name : String) :
    String → Option Str → List (PropRow × FileRow)
  | "exists", _ => joinRows s name
  | "contains", some v =>
    (joinRows s name).filter (fun r => decide (lowerStr v <:+: lowerStr r.1.propValue))
  | "contains", none => []
  | "!=", v =>
    s.fileIndex.filterMap (fun fr =>
      match s.fileProperties.find?
          (fun p => decide (p.filepath = fr.1) && decide (p.propName = name)) with
      | none => some (⟨fr.1, name, [], ""⟩, fr.2)
      | some p =>
        match v with
        | some w => if p.propValue ≠ w then some (p, fr.2) else none
        | none => none)
  | op, some v =>
    if op = ">" ∨ op = "<" ∨ op = ">=" ∨ op = "<=" then
      (joinRows s name).filter (fun r =>
        (decide (r.1.propType = "number") && cmpQ op (castReal r.1.propValue) (castReal v)) ||
        (decide (r.1.propType ≠ "number") && cmpStr op r.1.propValue v))
    else
      (joinRows s name).filter (fun r => decide (lowerStr r.1.propValue = lowerStr v))
  | _, none => []

/-- `PersistentSearchIndex.search_by_property`: filter, order by file mtime
descending, apply the LIMIT, and project the selected columns. -/
def sqlSearchByProperty (castReal : Str → ℚ) (s : IndexStore) (name : String)
    (op : String) (value : Option Str) (limit : ℕ) : List PropHit :=
  ((List.insertionSort mtimeGeRow (sqlFilterRows castReal s name op value)).take limit).map
    (fun r => ⟨r.1.filepath, r.1.propValue, r.1.propType⟩)

/-- Python `float(x)` on a property value: exact for ints, floats and bools,
the external string parser `pf` for strings, a `TypeError` (none) for lists. -/
def pyFloatOf (pf : Str → Option ℚ) : PropValue → Option ℚ
  | .scalar (.int n) => some (n : ℚ)
  | .scalar (.float q) => some q
  | .scalar (.bool b) => some (if b then 1 else 0)
  | .scalar (.str s) => pf s
  | .list _ => none

/-- The per-note match test of the fallback `_search_by_property`, clause
for clause: `exists` always matches a present property; `=`/`!=` on a list
decide membership by case-folded string rendering; `contains` on a list asks
whether some element contains the value; a comparison operator on a list
compares the list's length against `float(value)` (`pf`); on scalars the
code tries the shared-format date parse (`pdPair`, standing for the
`strptime` loop over both strings), then numeric, then string comparison. -/
def manualPropMatches (pf : Str → Option ℚ) (pdPair : Str → Str → Option (ℚ × ℚ)) :
    String → PropValue → Str → Bool
  | "exists", _, _ => true
  | "=", .list items, value =>
    items.any (fun item => decide (lowerStr item.pyString = lowerStr value))
  | "=", v, value => decide (lowerStr v.pyString = lowerStr value)
  | "!=", .list items, value =>
    !items.any (fun item => decide (lowerStr item.pyString = lowerStr value))
  | "!=", v, value => decide (lowerStr v.pyString ≠ lowerStr value)
  | "contains", .list items, value =>
    items.any (fun item => decide (lowerStr value <:+: lowerStr item.pyString))
  | "contains", v, value => decide (lowerStr value <:+: lowerStr v.pyString)
  | op, .list items, value =>
    if op = ">" ∨ op = "<" ∨ op = ">=" ∨ op = "<=" then
      match pf value with
      | some q => cmpQ op ((items.length : ℚ)) q
      | none => false
    else false
  | op, v, value =>
    if op = ">" ∨ op = "<" ∨ op = ">=" ∨ op = "<=" then
      match pdPair v.pyString value with
      | some dpdv => cmpQ op dpdv.1 dpdv.2
      | none =>
        match pyFloatOf pf v, pf value with
        | some np, some nv => cmpQ op np nv
        | _, _ => cmpStr op v.pyString value
    else false

/-- A one-document store whose only property is a list, ingested through
`index_file` (so the stored row is the real JSON serialization). -/
def listPropStore (fp : String) (content : Str) (name : String)
    (items : List Scalar) : IndexStore :=
  indexFile hashId noDate 0 emptyStore fp content 0 1
    (some ⟨some [(name, .list items)], []⟩)

/-- The `file_index` row of `listPropStore`. -/
def listPropRow (content : Str) (name : String) (items : List Scalar) : FileRow :=
  ⟨content, lowerStr content, 0, 1, hashId content, 0,
    some ⟨some [(name, PropValue.list items)], []⟩, calculateLineOffsets content⟩

/-- C5 counterexample: the property `tags = ["a"]` is stored, and the
fallback path's `=` finds the document by membership, but the persistent
SQL path's `=` compares the whole JSON text `["a"]` against `a` and returns
nothing — so `=` does not decide membership on the persistent path. -/
theorem C5_counterexample :
    manualPropMatches (fun _ => none) (fun _ _ => none) "="
      (.list [.str ['a']]) ['a'] = true ∧
    sqlSearchByProperty (fun _ => 0) (listPropStore "n.md" ['x'] "tags" [.str ['a']])
      "tags" "=" (some ['a']) 50 = [] ∧
    propsFor (listPropStore "n.md" ['x'] "tags" [.str ['a']]) "n.md" =
      [⟨"n.md", "tags", "[\"a\"]".toList, "list"⟩] := by
  refine ⟨by decide, by decide, by decide⟩

/-- C5 (amended): on the fallback manual path the claim holds as stated —
for a list-typed property, comparison operators compare the list's length
against the parsed value, `contains` asks whether some element contains the
value, and `=`/`!=` decide membership.  On the persistent-index path the
operators instead act on the JSON-serialized text of the list: `=` compares
the whole JSON string case-insensitively and a comparison operator compares
the JSON string lexicographically (the stored type tag `list` is not
`number`, so the numeric CAST branch never applies). -/
theorem C5_list_property_semantics (pf : Str → Option ℚ)
    (pdPair : Str → Str → Option (ℚ × ℚ)) (items : List Scalar) (value : Str)
    (castReal : Str → ℚ) (fp : String) (content : Str) (name : String) :
    (manualPropMatches pf pdPair ">" (.list items) value = true ↔
      ∃ q, pf value = some q ∧ q < (items.length : ℚ)) ∧
    (manualPropMatches pf pdPair "<" (.list items) value = true ↔
      ∃ q, pf value = some q ∧ (items.length : ℚ) < q) ∧
    (manualPropMatches pf pdPair ">=" (.list items) value = true ↔
      ∃ q, pf value = some q ∧ q ≤ (items.length : ℚ)) ∧
    (manualPropMatches pf pdPair "<=" (.list items) value = true ↔
      ∃ q, pf value = some q ∧ (items.length : ℚ) ≤ q) ∧
    (manualPropMatches pf pdPair "contains" (.list items) value = true ↔
      ∃ x ∈ items, lowerStr value <:+: lowerStr x.pyString) ∧
    (manualPropMatches pf pdPair "=" (.list items) value = true ↔
      ∃ x ∈ items, lowerStr x.pyString = lowerStr value) ∧
    (manualPropMatches pf pdPair "!=" (.list items) value = true ↔
      ¬ ∃ x ∈ items, lowerStr x.pyString = lowerStr value) ∧
    (sqlSearchByProperty castReal (listPropStore fp content name items)
        name "=" (some value) 50 =
      if lowerStr (propValueStr (.list items)) = lowerStr value then
        [⟨fp, propValueStr (.list items), "list"⟩] else []) ∧
    (sqlSearchByProperty castReal (listPropStore fp content name items)
        name ">" (some value) 50 =
      if cmpStr ">" (propValueStr (.list items)) value = true then
        [⟨fp, propValueStr (.list items), "list"⟩] else []) := by
  have hjoin : joinRows (listPropStore fp content name items) name =
      [(⟨fp, name, propValueStr (.list items), "list"⟩, listPropRow content name items)] := by
    have hprops : (listPropStore fp content name items).fileProperties =
        [⟨fp, name, propValueStr (.list items), "list"⟩] := rfl
    have hlook : lookupRow (listPropStore fp content name items) fp =
        some (listPropRow content name items) := by
      simp [lookupRow, listPropStore, indexFile, emptyStore, List.find?, listPropRow]
    simp [joinRows, hprops, hlook]
  refine ⟨?_, ?_, ?_, ?_, ?_, ?_, ?_, ?_, ?_⟩
  · have hred : manualPropMatches pf pdPair ">" (.list items) value =
        (match pf value with
          | some q => decide (q < (items.length : ℚ))
          | none => false) := rfl
    rw [hred]
    cases h : pf value <;> simp [h]
  · have hred : manualPropMatches pf pdPair "<" (.list items) value =
        (match pf value with
          | some q => decide ((items.length : ℚ) < q)
          | none => false) := rfl
    rw [hred]
    cases h : pf value <;> simp [h]
  · have hred : manualPropMatches pf pdPair ">=" (.list items) value =
        (match pf value with
          | some q => decide (q ≤ (items.length : ℚ))
          | none => false) := rfl
    rw [hred]
    cases h : pf value <;> simp [h]
  · have hred : manualPropMatches pf pdPair "<=" (.list items) value =
        (match pf value with
          | some q => decide ((items.length : ℚ) ≤ q)
          | none => false) := rfl
    rw [hred]
    cases h : pf value <;> simp [h]
  · have hred : manualPropMatches pf pdPair "contains" (.list items) value =
        items.any (fun item => decide (lowerStr value <:+: lowerStr item.pyString)) := rfl
    rw [hred]
    simp [List.any_eq_true]
  · have hred : manualPropMatches pf pdPair "=" (.list items) value =
        items.any (fun item => decide (lowerStr item.pyString = lowerStr value)) := rfl
    rw [hred]
    simp [List.any_eq_true]
  · have hred : manualPropMatches pf pdPair "!=" (.list items) value =
        !items.any (fun item => decide (lowerStr item.pyString = lowerStr value)) := rfl
    rw [hred]
    simp [List.any_eq_true]
  · have hred : sqlFilterRows castReal (listPropStore fp content name items) name
        "=" (some value) =
      (joinRows (listPropStore fp content name items) name).filter
        (fun r => decide (lowerStr r.1.propValue = lowerStr value)) := rfl
    rw [sqlSearchByProperty, hred, hjoin]
    by_cases hc : lowerStr (propValueStr (.list items)) = lowerStr value <;>
      simp [hc, List.filter, List.insertionSort, List.orderedInsert]
  · have hred : sqlFilterRows castReal (listPropStore fp content name items) name
        ">" (some value) =
      (joinRows (listPropStore fp content name items) name).filter
        (fun r =>
          (decide (r.1.propType = "number") &&
            cmpQ ">" (castReal r.1.propValue) (castReal value)) ||
          (decide (r.1.propType ≠ "number") && cmpStr ">" r.1.propValue value)) := rfl
    rw [sqlSearchByProperty, hred, hjoin]
    by_cases hc : cmpStr ">" (propValueStr (.list items)) value = true <;>
      simp [hc, List.filter, List.insertionSort, List.orderedInsert]

/-!
### C2 / C6 — regex search: literal pre-filter and scoring

`PersistentSearchIndex.search_regex` optionally pre-filters candidates with
an FTS5 phrase query built from `_extract_literal_prefix`, orders them by
size ascending then mtime descending, and processes them in bounded
parallel batches with early termination at the result limit; the collected
results are exactly the first `limit` files (in candidate order) whose
per-file processing found matches, and the method returns them without any
re-sort.  The per-file regex engine (`re`) and the FTS5 match engine are
taken as function parameters; concrete theorems instantiate them with
honest executable semantics for the patterns involved.
-/

/-- The extraction loop of `_extract_literal_prefix`: accumulate literal
characters, accept escaped metacharacters, stop at the first unescaped
metacharacter, regex escape class, or unknown escape. -/
def extractLiteralLoop : Str → Bool → Str → Str
  | [], _, lit => lit
  | c :: rest, escaped, lit =>
    if escaped then
      if c ∈ ['d', 'D', 'w', 'W', 's', 'S', 'b', 'B', 'A', 'Z'] then lit
      else if c ∈ ['n', 'r', 't', 'f', 'v'] then lit
      else if c ∈ ['.', '^', '$', '*', '+', '?', '{', '[', '|', '(', '\\'] then
        extractLiteralLoop rest false (lit ++ [c])
      else lit
    else if c = '\\' then extractLiteralLoop rest true lit
    else if c ∈ ['.', '^', '$', '*', '+', '?', '{', '[', '|', '('] then lit
    else extractLiteralLoop rest false (lit ++ [c])

/-- `_extract_literal_prefix`: the accumulated literal when it has at least
3 characters, else nothing (`search_regex` then scans every document). -/
def extractLiteral (pattern : Str) : Option Str :=
  if 3 ≤ (extractLiteralLoop pattern false []).length then
    some (extractLiteralLoop pattern false [])
  else none

/-- The regex score `min(match_count/5 + 1, 5)` shared by
`search_regex` and `_search_by_regex_memory`, written as one fraction so
the kernel can evaluate it; `regexScore_eq_source` recovers the source's
formula. -/
def regexScore (n : ℕ) : ℚ := min (mkRat (n + 5) 5) 5

/-- `regexScore` is the source's `min(count / 5.0 + 1.0, 5.0)`. -/
theorem regexScore_eq_source (n : ℕ) : regexScore n = min ((n : ℚ) / 5 + 1) 5 := by
  unfold regexScore
  rw [Rat.mkRat_eq_div]
  push_cast
  ring_nf

/-- Candidate order of `search_regex`: `ORDER BY size ASC, mtime DESC`
(the order of full ties is unspecified in SQL and irrelevant to every
claim). -/
def candLe (a b : String × FileRow) : Prop :=
  a.2.size < b.2.size ∨ (a.2.size = b.2.size ∧ b.2.mtime ≤ a.2.mtime)

instance : DecidableRel candLe :=
  fun a b =>
    inferInstanceAs (Decidable (a.2.size < b.2.size ∨
      (a.2.size = b.2.size ∧ b.2.mtime ≤ a.2.mtime)))

instance : IsTotal (String × FileRow) candLe :=
  ⟨fun a b => by
    rcases lt_trichotomy a.2.size b.2.size with h | h | h
    · exact Or.inl (Or.inl h)
    · rcases le_total b.2.mtime a.2.mtime with hm | hm
      · exact Or.inl (Or.inr ⟨h, hm⟩)
      · exact Or.inr (Or.inr ⟨h.symm, hm⟩)
    · exact Or.inr (Or.inl h)⟩

instance : IsTrans (String × FileRow) candLe :=
  ⟨fun a b c hab hbc => by
    rcases hab with h1 | ⟨h1, hm1⟩ <;> rcases hbc with h2 | ⟨h2, hm2⟩
    · exact Or.inl (lt_trans h1 h2)
    · exact Or.inl (h2 ▸ h1)
    · exact Or.inl (h1 ▸ h2)
    · exact Or.inr ⟨h1.trans h2, le_trans hm2 hm1⟩⟩

/-- One result row of `search_regex` / `_search_by_regex_memory`.
`μ` is the type of per-match data produced by the regex engine (match
text, line number, context); the claims quantify over it. -/
structure RegexFileResult (μ : Type) where
  filepath : String
  matchCount : ℕ
  matchList : List μ
  score : ℚ
deriving DecidableEq

/-- Descending-score order on regex results
(`sort(key=score, reverse=True)`). -/
def scoreGeRes {μ : Type} (a b : RegexFileResult μ) : Prop := b.score ≤ a.score

instance {μ : Type} : DecidableRel (scoreGeRes (μ := μ)) :=
  fun a b => inferInstanceAs (Decidable (b.score ≤ a.score))

instance {μ : Type} : IsTotal (RegexFileResult μ) scoreGeRes :=
  ⟨fun a b => le_total b.score a.score⟩

instance {μ : Type} : IsTrans (RegexFileResult μ) scoreGeRes :=
  ⟨fun _ _ _ h1 h2 => le_trans h2 h1⟩

/-- `PersistentSearchIndex.search_regex`: select candidates (pre-filtered
by the FTS5 phrase query `ftsMatch` when a literal prefix of length ≥ 3 was
extracted), order them by size then recency, process each with the regex
engine `procFile` (whose list of match contexts is capped at 5 by
`_search_file_content`), keep the files with matches, stop at the result
limit, and score each file `min(len(contexts)/5 + 1, 5)`.  The batch loop
collects results in candidate order and returns them without sorting. -/
def regexRowResult {μ : Type} (procFile : String → FileRow → List μ)
    (r : String × FileRow) : Option (RegexFileResult μ) :=
  if (procFile r.1 r.2).isEmpty then none
  else some ⟨r.1, (procFile r.1 r.2).length, procFile r.1 r.2,
    regexScore (procFile r.1 r.2).length⟩

def searchRegexPersistent {μ : Type} (procFile : String → FileRow → List μ)
    (ftsMatch : Str → String × FileRow → Bool) (pattern : Str) (limit : ℕ)
    (s : IndexStore) : List (RegexFileResult μ) :=
  ((match extractLiteral pattern with
    | some pre => (List.insertionSort candLe s.fileIndex).filter (ftsMatch pre)
    | none => List.insertionSort candLe s.fileIndex).filterMap
      (regexRowResult procFile)).take limit

/-- `search_regex` with the pre-filter branch not taken: the full ordered
scan (the comparison point of the claim). -/
def searchRegexNoPrefilter {μ : Type} (procFile : String → FileRow → List μ)
    (limit : ℕ) (s : IndexStore) : List (RegexFileResult μ) :=
  ((List.insertionSort candLe s.fileIndex).filterMap
    (regexRowResult procFile)).take limit

/-- `ObsidianVault._search_by_regex_memory`: scan the in-memory index in
insertion order, report every file with matches with its total match count
(`matchesOf` is the uncapped `finditer` list; the stored match contexts are
the first 5), stop collecting at the limit, then sort by score descending
and cut at the limit again. -/
def regexMemResult {μ : Type} (matchesOf : String → Str → List μ)
    (p : String × Str) : Option (RegexFileResult μ) :=
  if (matchesOf p.1 p.2).isEmpty then none
  else some ⟨p.1, (matchesOf p.1 p.2).length, (matchesOf p.1 p.2).take 5,
    regexScore (matchesOf p.1 p.2).length⟩

def searchByRegexMemory {μ : Type} (matchesOf : String → Str → List μ)
    (maxResults : ℕ) (idx : List (String × Str)) : List (RegexFileResult μ) :=
  (List.insertionSort scoreGeRes
    ((idx.filterMap (regexMemResult matchesOf)).take maxResults)).take maxResults

/-- `re.finditer` for an alternation of two nonempty literals: leftmost
match wins, the first alternative is preferred at equal positions, and the
scan resumes after each match's end; returns the match start positions. -/
def finditer2Aux (a b content : Str) : ℕ → ℕ → List ℕ
  | 0, _ => []
  | fuel + 1, i =>
    if a ≠ [] ∧ a <+: content.drop i then i :: finditer2Aux a b content fuel (i + a.length)
    else if b ≠ [] ∧ b <+: content.drop i then
      i :: finditer2Aux a b content fuel (i + b.length)
    else if i < content.length then finditer2Aux a b content fuel (i + 1)
    else []

/-- `re.finditer` over the whole content (enough fuel to reach the end). -/
def finditer2 (a b content : Str) : List ℕ :=
  finditer2Aux a b content (content.length + 1) 0

/-- A generous model of the FTS5 phrase pre-filter: a document passes when
its lowercased text contains the phrase as a substring.  (The real FTS5
token-phrase match accepts at most these documents, so a document rejected
here is rejected by FTS5 too.) -/
def ftsSubstring (pre : Str) (r : String × FileRow) : Bool :=
  decide (pre <:+: r.2.contentLower)

/-- The honest per-file engine for the regex `abc|xyz`: match start
positions, capped at the per-file limit of 5. -/
def altProcAbcXyz : String → FileRow → List ℕ :=
  fun _ r => (finditer2 "abc".toList "xyz".toList r.content).take 5

/-- A store holding one document whose text is `xyz` (it matches the regex
`abc|xyz` but contains no occurrence of the literal prefix `abc`). -/
def storeXyz : IndexStore :=
  ⟨[("x.md", ⟨"xyz".toList, "xyz".toList, 0, 3, [], 0, none, [0]⟩)], [], []⟩

/-- C2 counterexample: for the pattern `abc|xyz` the extractor stops at the
`|` and returns the prefix `abc`, the pre-filtered search returns nothing on
a document containing only `xyz`, and the unfiltered scan of the same store
returns that document with one match — the two branches do not produce the
same result set. -/
theorem C2_counterexample :
    extractLiteral "abc|xyz".toList = some "abc".toList ∧
    searchRegexPersistent altProcAbcXyz ftsSubstring "abc|xyz".toList 50 storeXyz = [] ∧
    searchRegexNoPrefilter altProcAbcXyz 50 storeXyz =
      [⟨"x.md", 1, [0], regexScore 1⟩] := by
  refine ⟨by decide, by decide, by decide⟩

/-- Filtering does not change a `filterMap` when the filter keeps every
element the map sends to `some`. -/
theorem filterMap_filter_of_imp {α β : Type} (l : List α) (p : α → Bool)
    (f : α → Option β) (h : ∀ x ∈ l, f x ≠ none → p x = true) :
    (l.filter p).filterMap f = l.filterMap f := by
  induction l with
  | nil => rfl
  | cons a l ih =>
    have ihl := ih (fun x hx => h x (List.mem_cons_of_mem a hx))
    by_cases hp : p a = true
    · rw [List.filter_cons_of_pos hp, List.filterMap_cons, List.filterMap_cons, ihl]
    · have hf : f a = none := by
        by_contra hne
        exact hp (h a (List.mem_cons_self a l) hne)
      rw [List.filter_cons_of_neg (by simpa using hp), List.filterMap_cons, hf, ihl]

/-- C2 (amended): the literal-prefix pre-filter preserves the regex result
set exactly when every candidate document in which the engine finds a match
also passes the FTS phrase query for the extracted prefix; the
counterexample shows this premise — and hence the claimed unconditional
equality — fails for alternation patterns such as `abc|xyz`. -/
theorem C2_prefilter_refinement {μ : Type} (procFile : String → FileRow → List μ)
    (ftsMatch : Str → String × FileRow → Bool) (pattern pre : Str) (limit : ℕ)
    (s : IndexStore) (hpre : extractLiteral pattern = some pre)
    (hcover : ∀ r ∈ s.fileIndex, procFile r.1 r.2 ≠ [] → ftsMatch pre r = true) :
    searchRegexPersistent procFile ftsMatch pattern limit s =
      searchRegexNoPrefilter procFile limit s := by
  unfold searchRegexPersistent searchRegexNoPrefilter
  rw [hpre]
  congr 1
  apply filterMap_filter_of_imp
  intro r hr hne
  apply hcover r ((List.perm_insertionSort candLe s.fileIndex).mem_iff.mp hr)
  intro hnil
  simp [regexRowResult, hnil] at hne

/-- Witness for C2: on a pattern that is itself a 3-character literal and a
store whose single document contains it, the premise holds and both
branches agree. -/
theorem C2_witness :
    searchRegexPersistent (fun _ r => (finditer2 "abc".toList "abc".toList r.content).take 5)
        ftsSubstring "abc".toList 50
        ⟨[("a.md", ⟨"abc".toList, "abc".toList, 0, 3, [], 0, none, [0]⟩)], [], []⟩ =
      searchRegexNoPrefilter
        (fun _ r => (finditer2 "abc".toList "abc".toList r.content).take 5) 50
        ⟨[("a.md", ⟨"abc".toList, "abc".toList, 0, 3, [], 0, none, [0]⟩)], [], []⟩ :=
  C2_prefilter_refinement _ ftsSubstring "abc".toList "abc".toList 50 _
    (by decide) (by decide)

/-- The honest per-file engine for the regex `q` (a single literal), with
the per-file cap of 5 match contexts applied by `_search_file_content`. -/
def qProc : String → FileRow → List ℕ :=
  fun _ r => (finditer2 "q".toList "q".toList r.content).take 5

/-- The uncapped `finditer` list for the regex `q`, as used by
`_search_by_regex_memory` for the reported match count. -/
def memQ : String → Str → List ℕ :=
  fun _ c => finditer2 "q".toList "q".toList c

/-- A store with a 1-byte document holding one match and a 2-byte document
holding two. -/
def storeQ : IndexStore :=
  ⟨[("a.md", ⟨"q".toList, "q".toList, 0, 1, [], 0, none, [0]⟩),
    ("b.md", ⟨"qq".toList, "qq".toList, 0, 2, [], 0, none, [0]⟩)], [], []⟩

/-- C6 counterexample: on the persistent path the smaller file (1 match,
score 6/5) is returned before the larger file (2 matches, score 7/5),
because `search_regex` returns results in candidate order (size ascending)
and never sorts by score — the returned list is not sorted by score
descending. -/
theorem C6_counterexample :
    (searchRegexPersistent qProc ftsSubstring "q".toList 50 storeQ).map
        (fun r => r.score) = [regexScore 1, regexScore 2] ∧
    ¬ List.Sorted scoreGeRes
        (searchRegexPersistent qProc ftsSubstring "q".toList 50 storeQ) := by
  have hlist : searchRegexPersistent qProc ftsSubstring "q".toList 50 storeQ =
      [⟨"a.md", 1, [0], regexScore 1⟩, ⟨"b.md", 2, [0, 1], regexScore 2⟩] := by decide
  constructor
  · rw [hlist]
    rfl
  · rw [hlist]
    intro hsort
    have h01 := (List.sorted_cons.mp hsort).1 ⟨"b.md", 2, [0, 1], regexScore 2⟩
      (List.mem_cons_self _ _)
    exact absurd h01 (by decide)

/-- C6 (amended): on both paths the per-file score equals
`min(matchCount/5 + 1, 5)` where `matchCount` is the reported match count
(the context-capped count on the persistent path, the uncapped `finditer`
count on the memory path); the in-memory fallback sorts its results by
score descending, while the persistent path returns them in candidate
order without sorting (see the counterexample). -/
theorem C6_regex_scoring {μ : Type} (procFile : String → FileRow → List μ)
    (ftsMatch : Str → String × FileRow → Bool) (pattern : Str) (limit : ℕ)
    (s : IndexStore) (matchesOf : String → Str → List μ) (maxResults : ℕ)
    (idx : List (String × Str)) (r rm : RegexFileResult μ)
    (hr : r ∈ searchRegexPersistent procFile ftsMatch pattern limit s)
    (hm : rm ∈ searchByRegexMemory matchesOf maxResults idx) :
    r.score = min ((r.matchCount : ℚ) / 5 + 1) 5 ∧
    rm.score = min ((rm.matchCount : ℚ) / 5 + 1) 5 ∧
    List.Sorted scoreGeRes (searchByRegexMemory matchesOf maxResults idx) := by
  refine ⟨?_, ?_, ?_⟩
  · unfold searchRegexPersistent at hr
    have hr2 := List.take_subset _ _ hr
    obtain ⟨a, _, heq⟩ := List.mem_filterMap.mp hr2
    unfold regexRowResult at heq
    split at heq
    · exact Option.noConfusion heq
    · rw [Option.some_inj] at heq
      subst heq
      exact regexScore_eq_source _
  · unfold searchByRegexMemory at hm
    have hm2 := List.take_subset _ _ hm
    rw [(List.perm_insertionSort scoreGeRes _).mem_iff] at hm2
    have hm3 := List.take_subset _ _ hm2
    obtain ⟨a, _, heq⟩ := List.mem_filterMap.mp hm3
    unfold regexMemResult at heq
    split at heq
    · exact Option.noConfusion heq
    · rw [Option.some_inj] at heq
      subst heq
      exact regexScore_eq_source _
  · unfold searchByRegexMemory
    exact List.Pairwise.sublist (List.take_sublist _ _)
      (List.sorted_insertionSort scoreGeRes _)

/-- Witness for C6: concrete runs of both paths containing a result each. -/
theorem C6_witness :
    (⟨"a.md", 1, [0], regexScore 1⟩ : RegexFileResult ℕ).score =
      min ((((⟨"a.md", 1, [0], regexScore 1⟩ : RegexFileResult ℕ).matchCount : ℚ)) / 5
        + 1) 5 ∧
    (⟨"a.md", 1, [0], regexScore 1⟩ : RegexFileResult ℕ).score =
      min ((((⟨"a.md", 1, [0], regexScore 1⟩ : RegexFileResult ℕ).matchCount : ℚ)) / 5
        + 1) 5 ∧
    List.Sorted scoreGeRes (searchByRegexMemory memQ 50 [("a.md", "q".toList)]) :=
  C6_regex_scoring qProc ftsSubstring "q".toList 50 storeQ memQ 50
    [("a.md", "q".toList)] ⟨"a.md", 1, [0], regexScore 1⟩
    ⟨"a.md", 1, [0], regexScore 1⟩ (by decide) (by decide)

end ObsidianMCP